import Mathlib

/-! Shallow embedding of the URL shortener backend for verification: the
Code Generator (the key service), the Link Registry (the URL service over
its Mongo repository), and the URL validity check built on the net/url
parser. Strings are embedded as Lean String or List Char, instants as Nat
with 0 as the Go zero time, byte values as Nat below 256, the Mongo
collection as a list of records in insertion order (FindOne returns the
first match), and failures of the external stores are injected through
explicit Boolean fault flags. -/

namespace URLShortner

/-- ASCII letter, as tested by the scheme scan and the host validation of
the Go net/url package. -/
def isAlphaCh (c : Char) : Bool :=
  decide ('a' ≤ c ∧ c ≤ 'z') || decide ('A' ≤ c ∧ c ≤ 'Z')

/-- ASCII digit. -/
def isDigitCh (c : Char) : Bool :=
  decide ('0' ≤ c ∧ c ≤ '9')

/-- ASCII hexadecimal digit. -/
def isHexCh (c : Char) : Bool :=
  isDigitCh c || decide ('a' ≤ c ∧ c ≤ 'f') || decide ('A' ≤ c ∧ c ≤ 'F')

/-- Control byte, rejected anywhere in a URL by the net/url parser. -/
def isCTLByte (c : Char) : Bool :=
  c.toNat < 32 || c.toNat == 127

/-- Numeric value of a hexadecimal digit. -/
def hexVal (c : Char) : Nat :=
  if isDigitCh c then c.toNat - 48
  else if decide ('a' ≤ c ∧ c ≤ 'f') then c.toNat - 87
  else c.toNat - 55

/-- Split at the first occurrence of a separator, as strings.Cut does in
Go: the part before it and, when the separator occurs, the part after. -/
def cutList (sep : Char) : List Char → List Char × Option (List Char)
  | [] => ([], none)
  | c :: rest =>
    if c = sep then ([], some rest)
    else
      let p := cutList sep rest
      (c :: p.1, p.2)

/-- Split at the last occurrence of a separator: the part before it and
the part after it, or none when the separator does not occur. -/
def splitAtLastCh (sep : Char) (cs : List Char) : Option (List Char × List Char) :=
  match cutList sep cs.reverse with
  | (_, none) => none
  | (afterRev, some beforeRev) => some (beforeRev.reverse, afterRev.reverse)

/-- Percent escapes are well formed: every percent sign is followed by
two hexadecimal digits (the malformed escape check of unescape). -/
def validEscapes : List Char → Bool
  | [] => true
  | '%' :: a :: b :: rest => isHexCh a && isHexCh b && validEscapes rest
  | '%' :: _ => false
  | _ :: rest => validEscapes rest

/-- Extra ASCII codes allowed raw in a host by shouldEscape of net/url:
the sub delims, colon, square brackets, angle brackets, the double quote,
hyphen, dot, underscore and tilde. -/
def hostExtraOK (n : Nat) : Bool :=
  n == 33 || n == 36 || n == 38 || n == 39 || n == 40 || n == 41 ||
  n == 42 || n == 43 || n == 44 || n == 59 || n == 61 || n == 58 ||
  n == 91 || n == 93 || n == 60 || n == 62 || n == 34 || n == 45 ||
  n == 46 || n == 95 || n == 126

/-- A character may appear unescaped in a host: letters, digits, the
codes of hostExtraOK, and every character beyond ASCII. -/
def hostCharOK (c : Char) : Bool :=
  isAlphaCh c || isDigitCh c || decide (128 ≤ c.toNat) || hostExtraOK c.toNat

/-- Host byte validation of unescape in host mode: raw characters must
satisfy hostCharOK, a percent escape must be well formed and must encode
either a byte beyond ASCII or exactly the byte 37 (the escape of the
percent sign itself). -/
def hostBytesOK : List Char → Bool
  | [] => true
  | '%' :: a :: b :: rest =>
    isHexCh a && isHexCh b &&
    (decide (128 ≤ hexVal a * 16 + hexVal b) || (a == '2' && b == '5')) &&
    hostBytesOK rest
  | '%' :: _ => false
  | c :: rest => hostCharOK c && hostBytesOK rest

/-- Port validation of net/url: empty, or a colon followed by digits. -/
def validOptionalPort : List Char → Bool
  | [] => true
  | ':' :: rest => rest.all isDigitCh
  | _ => false

/-- Host parsing of parseHost in net/url, keeping the raw host text: a
bracketed host needs its closing bracket and a valid port after it, an
unbracketed host needs a valid port after its last colon when one occurs,
and the bytes of the host must pass the host byte validation. Percent
decoding itself and the zone case are not tracked; neither changes
whether the host is empty. -/
def parseHost (host : List Char) : Option (List Char) :=
  match host with
  | '[' :: _ =>
    match splitAtLastCh ']' host with
    | none => none
    | some (_, after) =>
      if validOptionalPort after && hostBytesOK host then some host else none
  | _ =>
    let portOK :=
      match splitAtLastCh ':' host with
      | none => true
      | some (_, after) => validOptionalPort (':' :: after)
    if portOK && hostBytesOK host then some host else none

/-- Extra ASCII codes allowed in userinfo by validUserinfo of net/url. -/
def userinfoExtraOK (n : Nat) : Bool :=
  n == 45 || n == 46 || n == 95 || n == 58 || n == 126 || n == 33 ||
  n == 36 || n == 38 || n == 39 || n == 40 || n == 41 || n == 42 ||
  n == 43 || n == 44 || n == 59 || n == 61 || n == 37 || n == 64

/-- Character validation of validUserinfo in net/url. -/
def validUserinfoCh (c : Char) : Bool :=
  isAlphaCh c || isDigitCh c || userinfoExtraOK c.toNat

/-- Authority parsing of parseAuthority in net/url: the host is the part
after the last at sign, the userinfo before it must pass validUserinfo
and carry well formed percent escapes. Returns the host on success. -/
def parseAuthority (authority : List Char) : Option (List Char) :=
  match splitAtLastCh '@' authority with
  | none => parseHost authority
  | some (userinfo, hostPart) =>
    match parseHost hostPart with
    | none => none
    | some h =>
      if userinfo.all validUserinfoCh && validEscapes userinfo then some h
      else none

/-- Scheme scan of getScheme in net/url, with seen the reversed prefix
already accepted: letters continue, digits and plus, minus, dot continue
except in first position, a colon in first position is the missing scheme
error, a colon later ends the scheme, anything else means the URL carries
no scheme at all. -/
def getSchemeGo (seen : List Char) : List Char → Option (List Char × List Char)
  | [] => some ([], seen.reverse)
  | c :: rest =>
    if isAlphaCh c then getSchemeGo (c :: seen) rest
    else if isDigitCh c || c == '+' || c == '-' || c == '.' then
      if seen.isEmpty then some ([], c :: rest)
      else getSchemeGo (c :: seen) rest
    else if c == ':' then
      if seen.isEmpty then none
      else some (seen.reverse, rest)
    else some ([], seen.reverse ++ c :: rest)

/-- Scheme extraction of getScheme in net/url: none on the missing scheme
error, otherwise the scheme (possibly empty) and the rest. -/
def getScheme (rawURL : List Char) : Option (List Char × List Char) :=
  getSchemeGo [] rawURL

/-- The rest begins with a slash. -/
def startsWithSlash : List Char → Bool
  | '/' :: _ => true
  | _ => false

/-- The rest begins with two slashes. -/
def startsWith2Slash : List Char → Bool
  | '/' :: '/' :: _ => true
  | _ => false

/-- The rest begins with three slashes. -/
def startsWith3Slash : List Char → Bool
  | '/' :: '/' :: '/' :: _ => true
  | _ => false

/-- Parsed URL restricted to the two fields the shortener reads: scheme
and host, both as raw character lists. -/
structure GoURL where
  scheme : List Char
  host : List Char
  deriving Repr, DecidableEq

/-- Body of parse in net/url with viaRequest false, applied after the
fragment was split away: reject control bytes, accept the single star,
extract the scheme, drop the query, and then either treat a rootless rest
with a scheme as opaque with empty host, reject a colon in the first path
segment when no scheme is present, parse an authority after two slashes,
or leave the host empty; the remaining path bytes must carry well formed
percent escapes. -/
def parseNoFrag (rawURL : List Char) : Option GoURL :=
  if rawURL.any isCTLByte then none
  else if rawURL == [ '*' ] then some ⟨[], []⟩
  else
    match getScheme rawURL with
    | none => none
    | some (scheme0, rest0) =>
      let scheme := scheme0.map Char.toLower
      let rest := (cutList '?' rest0).1
      if !startsWithSlash rest && !scheme.isEmpty then
        some ⟨scheme, []⟩
      else if !startsWithSlash rest && scheme.isEmpty &&
          ((cutList '/' rest).1.contains ':') then
        none
      else if (!scheme.isEmpty || !startsWith3Slash rest) && startsWith2Slash rest then
        let afterSS := rest.drop 2
        let cut := cutList '/' afterSS
        let pathRest : List Char :=
          match cut.2 with
          | none => []
          | some r => '/' :: r
        match parseAuthority cut.1 with
        | none => none
        | some h => if validEscapes pathRest then some ⟨scheme, h⟩ else none
      else if validEscapes rest then some ⟨scheme, []⟩
      else none

/-- The Parse function of net/url restricted to success, scheme and host:
split the fragment at the first hash sign, parse the rest, and require
well formed percent escapes in the fragment. -/
def urlParse (rawURL : List Char) : Option GoURL :=
  let cut := cutList '#' rawURL
  match parseNoFrag cut.1 with
  | none => none
  | some u =>
    match cut.2 with
    | none => some u
    | some f => if validEscapes f then some u else none

/-- The isValidURL check of the URL service (the same test as IsValidURL
of the validators package): url.Parse succeeds and both the Scheme and
the Host fields are nonempty. -/
def isValidURL (rawURL : String) : Bool :=
  match urlParse rawURL.data with
  | none => false
  | some u => !u.scheme.isEmpty && !u.host.isEmpty

/-- URL safe base64 alphabet of base64.URLEncoding in Go. -/
def b64urlAlphabet : List Char :=
  [ 'A', 'B', 'C', 'D', 'E', 'F', 'G', 'H', 'I', 'J', 'K', 'L', 'M',
    'N', 'O', 'P', 'Q', 'R', 'S', 'T', 'U', 'V', 'W', 'X', 'Y', 'Z',
    'a', 'b', 'c', 'd', 'e', 'f', 'g', 'h', 'i', 'j', 'k', 'l', 'm',
    'n', 'o', 'p', 'q', 'r', 's', 't', 'u', 'v', 'w', 'x', 'y', 'z',
    '0', '1', '2', '3', '4', '5', '6', '7', '8', '9', '-', '_' ]

/-- Alphabet character at an index below 64. -/
def b64char (n : Nat) : Char :=
  b64urlAlphabet.getD n 'A'

/-- Base64 encoding over byte values: three input bytes become four
output characters, a final partial group is padded with equal signs, as
the standard Go encoder does. -/
def b64encodeGroups : List Nat → List Char
  | b0 :: b1 :: b2 :: rest =>
    b64char (b0 / 4) :: b64char (b0 % 4 * 16 + b1 / 16) ::
    b64char (b1 % 16 * 4 + b2 / 64) :: b64char (b2 % 64) ::
    b64encodeGroups rest
  | [b0, b1] =>
    [ b64char (b0 / 4), b64char (b0 % 4 * 16 + b1 / 16),
      b64char (b1 % 16 * 4), '=' ]
  | [b0] =>
    [ b64char (b0 / 4), b64char (b0 % 4 * 16), '=', '=' ]
  | [] => []

/-- TrimRight over the padding character. -/
def trimRightPad (cs : List Char) : List Char :=
  (cs.reverse.dropWhile fun c => c == '=').reverse

/-- URL safe code characters: letters, digits, hyphen, underscore. -/
def urlSafeChar (c : Char) : Bool :=
  isAlphaCh c || isDigitCh c || c == '-' || c == '_'

/-- The generateShortCode fallback of the key service: base64 URL encode
the drawn bytes, strip the padding, and truncate to eight characters when
longer. The argument is the byte list rand.Read produced, six bytes each
below 256 in every actual call. -/
def KeyService.generateShortCode (bytes : List Nat) : List Char :=
  let encoded := b64encodeGroups bytes
  let code := trimRightPad encoded
  if code.length > 8 then code.take 8 else code

/-- Failure of the redis pop: a nil client or an unreachable backend. -/
inductive RedisErr
  | unavailable
  deriving Repr, DecidableEq

/-- The getFromRedisQueue path of the key service over the pool modelled
as the list of queued codes: an unreachable redis is an error, an empty
queue is the redis nil reply modelled as an empty string with no error,
otherwise the popped head is consumed. -/
def KeyService.getFromRedisQueue (redisDown : Bool) (pool : List String) :
    Except RedisErr String × List String :=
  if redisDown then (Except.error RedisErr.unavailable, pool)
  else
    match pool with
    | [] => (Except.ok "", pool)
    | c :: rest => (Except.ok c, rest)

/-- Generation failure, a representable outcome GetShortCode never
produces. -/
inductive GenErr
  | generationFailure
  deriving Repr, DecidableEq

/-- GetShortCode of the key service: return the popped code when the pop
succeeded with a nonempty code, otherwise generate locally from the drawn
random bytes; the error component is ok on every path, matching the nil
error the Go code returns everywhere. -/
def KeyService.GetShortCode (redisDown : Bool) (pool : List String)
    (drawn : List Nat) : Except GenErr String × List String :=
  match KeyService.getFromRedisQueue redisDown pool with
  | (Except.ok c, pool2) =>
    if c ≠ "" then (Except.ok c, pool2)
    else (Except.ok (String.mk (KeyService.generateShortCode drawn)), pool2)
  | (Except.error _, pool2) =>
    (Except.ok (String.mk (KeyService.generateShortCode drawn)), pool2)

/-- ShortURL record of the models package: the store identifier is
omitted, the creation and expiry instants are Nat with 0 as the Go zero
time, the click count is Int as the Go int64 (overflow is unreachable at
the magnitudes the counter takes). -/
structure ShortURL where
  originalURL : String
  shortCode : String
  createdAt : Nat
  expiresAt : Option Nat
  clickCount : Int
  isActive : Bool
  deriving Repr, DecidableEq

/-- Injected environment faults: each flag makes the matching external
call fail during the operation under study. -/
structure Faults where
  origLookup : Bool
  codeLookup : Bool
  insert : Bool
  redisDown : Bool
  inc : Bool
  deriving Repr, DecidableEq

/-- State shared by the operations: the Mongo collection in insertion
order and the redis code pool. -/
structure SysState where
  store : List ShortURL
  pool : List String
  deriving Repr, DecidableEq

/-- Errors of the Mongo driver as the repository sees them: the missing
document sentinel or an input output failure. -/
inductive RepoErr
  | noDocuments
  | ioError
  deriving Repr, DecidableEq

/-- GetShortURLByCode of the Mongo repository: FindOne on the short code
filter returns the first record in insertion order; an injected fault is
the driver input output error, a missing record the no documents error. -/
def MongoRepository.GetShortURLByCode (store : List ShortURL) (ioFault : Bool)
    (shortCode : String) : Except RepoErr ShortURL :=
  if ioFault then Except.error RepoErr.ioError
  else
    match store.find? fun r => r.shortCode == shortCode with
    | some r => Except.ok r
    | none => Except.error RepoErr.noDocuments

/-- GetShortURLByOriginal of the Mongo repository: FindOne on the
original URL filter, nil with no error when no document matches. -/
def MongoRepository.GetShortURLByOriginal (store : List ShortURL) (ioFault : Bool)
    (originalURL : String) : Except RepoErr (Option ShortURL) :=
  if ioFault then Except.error RepoErr.ioError
  else Except.ok (store.find? fun r => r.originalURL == originalURL)

/-- Increment of the click count of the first record matching the short
code: the UpdateOne call with the inc operator of the repository, acting
on the unique short code filter. -/
def incFirst (store : List ShortURL) (shortCode : String) : List ShortURL :=
  match store with
  | [] => []
  | r :: rest =>
    if r.shortCode == shortCode then
      { r with clickCount := r.clickCount + 1 } :: rest
    else r :: incFirst rest shortCode

/-- UpdateClickCount of the Mongo repository: on fault the store is
unchanged and the error returned, otherwise the first matching record is
incremented by one atomically. -/
def MongoRepository.UpdateClickCount (store : List ShortURL) (ioFault : Bool)
    (shortCode : String) : Except RepoErr Unit × List ShortURL :=
  if ioFault then (Except.error RepoErr.ioError, store)
  else (Except.ok (), incFirst store shortCode)

/-- CreateShortURL of the Mongo repository: fill the zero creation
instant with now, force the active flag to true when unset, keep the zero
click count, then InsertOne appends the record; on fault nothing is
inserted. The record as mutated is returned for the service to hand
back, mirroring the pointer mutation in Go. -/
def MongoRepository.CreateShortURL (store : List ShortURL) (ioFault : Bool)
    (now : Nat) (u : ShortURL) : Except RepoErr ShortURL × List ShortURL :=
  let u1 := if u.createdAt = 0 then { u with createdAt := now } else u
  let u2 := if !u1.isActive then { u1 with isActive := true } else u1
  let u3 := if u2.clickCount = 0 then { u2 with clickCount := 0 } else u2
  if ioFault then (Except.error RepoErr.ioError, store)
  else (Except.ok u3, store ++ [u3])

/-- GetStats of the Mongo repository, an alias of GetShortURLByCode. -/
def MongoRepository.GetStats (store : List ShortURL) (ioFault : Bool)
    (shortCode : String) : Except RepoErr ShortURL :=
  MongoRepository.GetShortURLByCode store ioFault shortCode

/-- Errors of ShortenURL in the URL service. -/
inductive ShortenError
  | invalidURL
  | codeGenFailed
  | createFailed
  deriving Repr, DecidableEq

/-- Errors of GetOriginalURL and GetStats in the URL service. -/
inductive ResolveError
  | notFound
  | inactive
  | expired
  deriving Repr, DecidableEq

/-- Expiry test of GetOriginalURL: an expiry instant is set and now is
strictly after it, as the After call on Go times. -/
def isExpired (expiresAt : Option Nat) (now : Nat) : Bool :=
  match expiresAt with
  | none => false
  | some e => decide (e < now)

/-- ShortenURL of the URL service: validate the URL, return an existing
record for the same original URL unchanged (lookup errors swallowed into
the missing case by the discarded error), otherwise obtain a code from
the key service, build the record with the optional expiry now plus the
requested duration, and persist it. The parameter now stands for every
wall clock read inside the one call; drawn holds the bytes the local
generator would draw. -/
def URLService.ShortenURL (st : SysState) (f : Faults) (now : Nat)
    (drawn : List Nat) (originalURL : String) (expiresIn : Option Nat) :
    Except ShortenError ShortURL × SysState :=
  if !isValidURL originalURL then (Except.error ShortenError.invalidURL, st)
  else
    let existing : Option ShortURL :=
      match MongoRepository.GetShortURLByOriginal st.store f.origLookup originalURL with
      | Except.ok o => o
      | Except.error _ => none
    match existing with
    | some r => (Except.ok r, st)
    | none =>
      match KeyService.GetShortCode f.redisDown st.pool drawn with
      | (Except.error _, pool2) =>
        (Except.error ShortenError.codeGenFailed, { store := st.store, pool := pool2 })
      | (Except.ok code, pool2) =>
        let u0 : ShortURL :=
          { originalURL := originalURL, shortCode := code, createdAt := 0,
            expiresAt := expiresIn.map fun d => now + d, clickCount := 0,
            isActive := false }
        match MongoRepository.CreateShortURL st.store f.insert now u0 with
        | (Except.error _, store2) =>
          (Except.error ShortenError.createFailed, { store := store2, pool := pool2 })
        | (Except.ok u, store2) =>
          (Except.ok u, { store := store2, pool := pool2 })

/-- GetOriginalURL of the URL service: any failure of the code lookup is
returned as not found, an inactive record as inactive, then a past expiry
as expired; on success the click increment is attempted, a failure of it
only logged, and the original URL returned. -/
def URLService.GetOriginalURL (store : List ShortURL) (f : Faults) (now : Nat)
    (shortCode : String) : Except ResolveError String × List ShortURL :=
  match MongoRepository.GetShortURLByCode store f.codeLookup shortCode with
  | Except.error _ => (Except.error ResolveError.notFound, store)
  | Except.ok shortURL =>
    if !shortURL.isActive then (Except.error ResolveError.inactive, store)
    else if isExpired shortURL.expiresAt now then
      (Except.error ResolveError.expired, store)
    else
      let upd := MongoRepository.UpdateClickCount store f.inc shortCode
      (Except.ok shortURL.originalURL, upd.2)

/-- GetStats of the URL service: any repository failure becomes not
found, otherwise the record is returned; the store is untouched. -/
def URLService.GetStats (store : List ShortURL) (f : Faults)
    (shortCode : String) : Except ResolveError ShortURL × List ShortURL :=
  match MongoRepository.GetStats store f.codeLookup shortCode with
  | Except.error _ => (Except.error ResolveError.notFound, store)
  | Except.ok r => (Except.ok r, store)

/-- RedirectURL of the URL handler reduced to the HTTP status it writes:
400 on an empty code, 404 on not found, 410 on expired or inactive, and
the temporary redirect 307 on success. -/
def URLHandler.RedirectURL (store : List ShortURL) (f : Faults) (now : Nat)
    (code : String) : Nat × List ShortURL :=
  if code = "" then (400, store)
  else
    match URLService.GetOriginalURL store f now code with
    | (Except.error ResolveError.notFound, st) => (404, st)
    | (Except.error ResolveError.expired, st) => (410, st)
    | (Except.error ResolveError.inactive, st) => (410, st)
    | (Except.ok _, st) => (307, st)

/-- All fault flags off: every external store behaves. -/
def noFaults : Faults :=
  { origLookup := false, codeLookup := false, insert := false,
    redisDown := false, inc := false }

/-- Sample record: active, without expiry. -/
def recPlain : ShortURL :=
  { originalURL := "https://a.example", shortCode := "aaa", createdAt := 0,
    expiresAt := none, clickCount := 0, isActive := true }

/-- Sample record: deactivated, already past its expiry as well. -/
def recOff : ShortURL :=
  { originalURL := "https://b.example", shortCode := "bbb", createdAt := 0,
    expiresAt := some 1, clickCount := 0, isActive := false }

/-- Sample record: active with an expiry instant of 10. -/
def recOld : ShortURL :=
  { originalURL := "https://c.example", shortCode := "ccc", createdAt := 0,
    expiresAt := some 10, clickCount := 0, isActive := true }

/-- Record that a successful fresh creation persists, given the code the
key service produced: creation instant now, active, zero clicks, expiry
now plus the requested duration when one was given. -/
def createdRecord (now : Nat) (s : String) (d : Option Nat) (code : String) : ShortURL :=
  { originalURL := s, shortCode := code, createdAt := now,
    expiresAt := d.map fun x => now + x, clickCount := 0, isActive := true }

/-- Relation between the optional records at one index of the store
before and after one operation: an existing record keeps its click count
or gains exactly one, a fresh record starts at zero, and a record never
disappears. -/
def clickRel : Option ShortURL → Option ShortURL → Prop
  | some a, some b => b.clickCount = a.clickCount ∨ b.clickCount = a.clickCount + 1
  | none, some b => b.clickCount = 0
  | some _, none => False
  | none, none => True

/-- Every index of the store evolves by clickRel across one operation. -/
def clickCountsOK (pre post : List ShortURL) : Prop :=
  ∀ i : Nat, clickRel (pre.get? i) (post.get? i)

theorem clickRel_refl (o : Option ShortURL) : clickRel o o := by
  cases o <;> simp [clickRel]

theorem clickCountsOK_refl (l : List ShortURL) : clickCountsOK l l :=
  fun _ => clickRel_refl _

/-- Every index of the base64 alphabet yields a URL safe character that
is not the padding sign. -/
theorem b64char_props : ∀ n < 64, urlSafeChar (b64char n) = true ∧ (b64char n == '=') = false := by
  decide

/-- A trailing character other than the padding sign blocks the trim. -/
theorem trimRightPad_of_last (cs : List Char) (a : Char) (h : (a == '=') = false) :
    trimRightPad (cs ++ [a]) = cs ++ [a] := by
  unfold trimRightPad
  rw [List.reverse_append]
  simp [List.dropWhile, h]

/-- C8: every code produced by the local generation fallback comes from
six random bytes, URL safe base64 encoded, padding stripped, truncated to
at most eight characters; so every such code has six to eight URL safe
characters and its length never exceeds eight (here it is exactly 8). -/
theorem C8_local_code_shape (bytes : List Nat) (hlen : bytes.length = 6)
    (hb : ∀ b ∈ bytes, b < 256) :
    (KeyService.generateShortCode bytes).length = 8 ∧
    6 ≤ (KeyService.generateShortCode bytes).length ∧
    (KeyService.generateShortCode bytes).length ≤ 8 ∧
    ∀ c ∈ KeyService.generateShortCode bytes, urlSafeChar c = true := by
  rcases bytes with _ | ⟨b0, _ | ⟨b1, _ | ⟨b2, _ | ⟨b3, _ | ⟨b4, _ | ⟨b5, _ | ⟨b6, t⟩⟩⟩⟩⟩⟩⟩ <;>
    simp only [List.length_cons, List.length_nil] at hlen <;> try omega
  have hb0 : b0 < 256 := hb b0 (by simp)
  have hb1 : b1 < 256 := hb b1 (by simp)
  have hb2 : b2 < 256 := hb b2 (by simp)
  have hb3 : b3 < 256 := hb b3 (by simp)
  have hb4 : b4 < 256 := hb b4 (by simp)
  have hb5 : b5 < 256 := hb b5 (by simp)
  have h1 : b0 / 4 < 64 := by omega
  have h2 : b0 % 4 * 16 + b1 / 16 < 64 := by omega
  have h3 : b1 % 16 * 4 + b2 / 64 < 64 := by omega
  have h4 : b2 % 64 < 64 := by omega
  have h5 : b3 / 4 < 64 := by omega
  have h6 : b3 % 4 * 16 + b4 / 16 < 64 := by omega
  have h7 : b4 % 16 * 4 + b5 / 64 < 64 := by omega
  have h8 : b5 % 64 < 64 := by omega
  have htrim : trimRightPad
      [ b64char (b0 / 4), b64char (b0 % 4 * 16 + b1 / 16),
        b64char (b1 % 16 * 4 + b2 / 64), b64char (b2 % 64),
        b64char (b3 / 4), b64char (b3 % 4 * 16 + b4 / 16),
        b64char (b4 % 16 * 4 + b5 / 64), b64char (b5 % 64) ] =
      [ b64char (b0 / 4), b64char (b0 % 4 * 16 + b1 / 16),
        b64char (b1 % 16 * 4 + b2 / 64), b64char (b2 % 64),
        b64char (b3 / 4), b64char (b3 % 4 * 16 + b4 / 16),
        b64char (b4 % 16 * 4 + b5 / 64), b64char (b5 % 64) ] :=
    trimRightPad_of_last
      [ b64char (b0 / 4), b64char (b0 % 4 * 16 + b1 / 16),
        b64char (b1 % 16 * 4 + b2 / 64), b64char (b2 % 64),
        b64char (b3 / 4), b64char (b3 % 4 * 16 + b4 / 16),
        b64char (b4 % 16 * 4 + b5 / 64) ]
      (b64char (b5 % 64)) ((b64char_props _ h8).2)
  have key : KeyService.generateShortCode [b0, b1, b2, b3, b4, b5] =
      [ b64char (b0 / 4), b64char (b0 % 4 * 16 + b1 / 16),
        b64char (b1 % 16 * 4 + b2 / 64), b64char (b2 % 64),
        b64char (b3 / 4), b64char (b3 % 4 * 16 + b4 / 16),
        b64char (b4 % 16 * 4 + b5 / 64), b64char (b5 % 64) ] := by
    unfold KeyService.generateShortCode
    simp only [b64encodeGroups]
    rw [htrim]
    simp
  refine ⟨by rw [key]; simp, by rw [key]; simp, by rw [key]; simp, ?_⟩
  intro c hc
  rw [key] at hc
  simp only [List.mem_cons, List.not_mem_nil, or_false] at hc
  rcases hc with rfl | rfl | rfl | rfl | rfl | rfl | rfl | rfl
  · exact (b64char_props _ h1).1
  · exact (b64char_props _ h2).1
  · exact (b64char_props _ h3).1
  · exact (b64char_props _ h4).1
  · exact (b64char_props _ h5).1
  · exact (b64char_props _ h6).1
  · exact (b64char_props _ h7).1
  · exact (b64char_props _ h8).1

theorem C8_witness :
    (KeyService.generateShortCode [10, 20, 30, 40, 50, 60]).length = 8 ∧
    6 ≤ (KeyService.generateShortCode [10, 20, 30, 40, 50, 60]).length ∧
    (KeyService.generateShortCode [10, 20, 30, 40, 50, 60]).length ≤ 8 ∧
    ∀ c ∈ KeyService.generateShortCode [10, 20, 30, 40, 50, 60], urlSafeChar c = true :=
  C8_local_code_shape [10, 20, 30, 40, 50, 60] (by decide) (by decide)

/-- C7: GetShortCode never fails: an erroring pool pop (redis down) and
an exhausted pool are both treated as a cache miss and answered by local
generation without error; a successful pop of a nonempty code returns
exactly that code and consumes exactly that one entry from the pool. -/
theorem C7_getshortcode_total (redisDown : Bool) (pool : List String) (drawn : List Nat) :
    (∃ c, (KeyService.GetShortCode redisDown pool drawn).1 = Except.ok c) ∧
    (∀ c rest, redisDown = false → pool = c :: rest → c ≠ "" →
      KeyService.GetShortCode redisDown pool drawn = (Except.ok c, rest)) ∧
    (redisDown = true →
      KeyService.GetShortCode redisDown pool drawn =
        (Except.ok (String.mk (KeyService.generateShortCode drawn)), pool)) ∧
    (redisDown = false → pool = [] →
      KeyService.GetShortCode redisDown pool drawn =
        (Except.ok (String.mk (KeyService.generateShortCode drawn)), pool)) := by
  refine ⟨?_, ?_, ?_, ?_⟩
  · unfold KeyService.GetShortCode KeyService.getFromRedisQueue
    cases redisDown with
    | true => exact ⟨_, rfl⟩
    | false =>
      cases pool with
      | nil => exact ⟨_, rfl⟩
      | cons c rest =>
        by_cases hc : c = ""
        · simp [hc]
        · simp [hc]
  · intro c rest hd hp hc
    subst hd; subst hp
    unfold KeyService.GetShortCode KeyService.getFromRedisQueue
    simp [hc]
  · intro hd
    subst hd
    rfl
  · intro hd hp
    subst hd; subst hp
    rfl

theorem C7_witness :
    KeyService.GetShortCode false ["abc", "def"] [1, 2, 3, 4, 5, 6] =
      (Except.ok "abc", ["def"]) ∧
    KeyService.GetShortCode true [] [1, 2, 3, 4, 5, 6] =
      (Except.ok (String.mk (KeyService.generateShortCode [1, 2, 3, 4, 5, 6])), []) :=
  ⟨(C7_getshortcode_total false ["abc", "def"] [1, 2, 3, 4, 5, 6]).2.1 "abc" ["def"]
      rfl rfl (by decide),
   (C7_getshortcode_total true [] [1, 2, 3, 4, 5, 6]).2.2.1 rfl⟩

/-- C1: resolution fails with not found when no record matches, with
inactive when the record is inactive (checked before expiry, so also for
an inactive and expired record), with expired when an expiry instant is
set and lies in the past; a record without expiry never resolves to the
expired failure at any current time. -/
theorem C1_resolve_checks (store : List ShortURL) (f : Faults) (now : Nat)
    (shortCode : String) (hf : f.codeLookup = false) :
    ((store.find? fun r => r.shortCode == shortCode) = none →
      (URLService.GetOriginalURL store f now shortCode).1 =
        Except.error ResolveError.notFound) ∧
    (∀ r, (store.find? fun x => x.shortCode == shortCode) = some r →
      r.isActive = false →
      (URLService.GetOriginalURL store f now shortCode).1 =
        Except.error ResolveError.inactive) ∧
    (∀ r e, (store.find? fun x => x.shortCode == shortCode) = some r →
      r.isActive = true → r.expiresAt = some e → e < now →
      (URLService.GetOriginalURL store f now shortCode).1 =
        Except.error ResolveError.expired) ∧
    (∀ r, (store.find? fun x => x.shortCode == shortCode) = some r →
      r.expiresAt = none →
      (URLService.GetOriginalURL store f now shortCode).1 ≠
        Except.error ResolveError.expired) := by
  refine ⟨?_, ?_, ?_, ?_⟩
  · intro hnone
    unfold URLService.GetOriginalURL MongoRepository.GetShortURLByCode
    simp [hf, hnone]
  · intro r hfind hact
    unfold URLService.GetOriginalURL MongoRepository.GetShortURLByCode
    simp [hf, hfind, hact]
  · intro r e hfind hact hexp hlt
    unfold URLService.GetOriginalURL MongoRepository.GetShortURLByCode
    simp [hf, hfind, hact, isExpired, hexp, hlt]
  · intro r hfind hexp
    unfold URLService.GetOriginalURL MongoRepository.GetShortURLByCode
    by_cases hact : r.isActive
    · simp [hf, hfind, hact, isExpired, hexp]
    · simp [hf, hfind, hact]

theorem C1_witness :
    ((URLService.GetOriginalURL [] noFaults 3 "zzz").1 =
      Except.error ResolveError.notFound) ∧
    ((URLService.GetOriginalURL [recOff] noFaults 3 "bbb").1 =
      Except.error ResolveError.inactive) ∧
    ((URLService.GetOriginalURL [recOld] noFaults 99 "ccc").1 =
      Except.error ResolveError.expired) ∧
    ((URLService.GetOriginalURL [recPlain] noFaults 999999 "aaa").1 ≠
      Except.error ResolveError.expired) :=
  ⟨(C1_resolve_checks [] noFaults 3 "zzz" rfl).1 rfl,
   (C1_resolve_checks [recOff] noFaults 3 "bbb" rfl).2.1 recOff rfl rfl,
   (C1_resolve_checks [recOld] noFaults 99 "ccc" rfl).2.2.1 recOld 10 rfl rfl rfl
     (by omega),
   (C1_resolve_checks [recPlain] noFaults 999999 "aaa" rfl).2.2.2 recPlain rfl rfl⟩

/-- C5: a found, active, unexpired record resolves to its original URL
even when the click increment fails; the increment failure is never
propagated, so the resolve result does not depend on it. -/
theorem C5_increment_isolated (store : List ShortURL) (f : Faults) (now : Nat)
    (shortCode : String) (r : ShortURL)
    (hcl : f.codeLookup = false)
    (hfind : (store.find? fun x => x.shortCode == shortCode) = some r)
    (hact : r.isActive = true)
    (hexp : isExpired r.expiresAt now = false) :
    (URLService.GetOriginalURL store { f with inc := true } now shortCode).1 =
      Except.ok r.originalURL ∧
    (URLService.GetOriginalURL store { f with inc := true } now shortCode).1 =
    (URLService.GetOriginalURL store { f with inc := false } now shortCode).1 := by
  constructor
  · unfold URLService.GetOriginalURL MongoRepository.GetShortURLByCode
    simp [hcl, hfind, hact, hexp]
  · unfold URLService.GetOriginalURL MongoRepository.GetShortURLByCode
    simp [hcl, hfind, hact, hexp]

theorem C5_witness :
    (URLService.GetOriginalURL [recPlain] { noFaults with inc := true } 3 "aaa").1 =
      Except.ok recPlain.originalURL ∧
    (URLService.GetOriginalURL [recPlain] { noFaults with inc := true } 3 "aaa").1 =
    (URLService.GetOriginalURL [recPlain] { noFaults with inc := false } 3 "aaa").1 :=
  C5_increment_isolated [recPlain] noFaults 3 "aaa" recPlain rfl rfl rfl rfl

/-- C6 counterexample: the store lookup itself fails (injected input
output fault) while a matching active record exists, yet GetOriginalURL
returns the not found failure, not a distinct internal store failure; the
resolve error type of the service has no store failure at all. -/
theorem C6_counterexample :
    (URLService.GetOriginalURL [recPlain]
      { noFaults with codeLookup := true } 3 "aaa").1 =
      Except.error ResolveError.notFound := rfl

/-- C6 amended: a store lookup failure during resolution is collapsed
into the not found failure, indistinguishable from a missing record, and
the redirect handler answers 404 rather than a generic internal
failure. -/
theorem C6_lookup_fault_not_found (store : List ShortURL) (f : Faults)
    (now : Nat) (code : String) (h : f.codeLookup = true) (hc : code ≠ "") :
    (URLService.GetOriginalURL store f now code).1 =
      Except.error ResolveError.notFound ∧
    (URLHandler.RedirectURL store f now code).1 = 404 := by
  have h1 : URLService.GetOriginalURL store f now code =
      (Except.error ResolveError.notFound, store) := by
    unfold URLService.GetOriginalURL MongoRepository.GetShortURLByCode
    simp [h]
  refine ⟨by rw [h1], ?_⟩
  unfold URLHandler.RedirectURL
  rw [if_neg hc, h1]

theorem C6_witness :
    (URLService.GetOriginalURL [recPlain] { noFaults with codeLookup := true } 3 "aaa").1 =
      Except.error ResolveError.notFound ∧
    (URLHandler.RedirectURL [recPlain] { noFaults with codeLookup := true } 3 "aaa").1 = 404 :=
  C6_lookup_fault_not_found [recPlain] { noFaults with codeLookup := true } 3 "aaa"
    rfl (by decide)

/-- C10: whenever resolution fails, with any of the three failures, the
store is left entirely unchanged; in particular no click count is
incremented, because the increment is dispatched only after every check
passed. -/
theorem C10_failure_frame (store : List ShortURL) (f : Faults) (now : Nat)
    (shortCode : String) (e : ResolveError)
    (h : (URLService.GetOriginalURL store f now shortCode).1 = Except.error e) :
    (URLService.GetOriginalURL store f now shortCode).2 = store := by
  unfold URLService.GetOriginalURL at h ⊢
  cases hx : MongoRepository.GetShortURLByCode store f.codeLookup shortCode with
  | error _ => simp [hx]
  | ok r =>
    by_cases hact : r.isActive
    · by_cases hexp : isExpired r.expiresAt now
      · simp [hact, hexp]
      · rw [hx] at h
        simp [hact, hexp] at h
    · simp [hact]

theorem C10_witness :
    (URLService.GetOriginalURL [recOff] noFaults 3 "bbb").2 = [recOff] :=
  C10_failure_frame [recOff] noFaults 3 "bbb" ResolveError.inactive rfl

/-- The key service answers with ok on every path. -/
theorem GetShortCode_ok (redisDown : Bool) (pool : List String) (drawn : List Nat) :
    ∃ c, (KeyService.GetShortCode redisDown pool drawn).1 = Except.ok c := by
  unfold KeyService.GetShortCode KeyService.getFromRedisQueue
  cases redisDown with
  | true => exact ⟨_, rfl⟩
  | false =>
    cases pool with
    | nil => exact ⟨_, rfl⟩
    | cons c rest =>
      by_cases hc : c = ""
      · simp [hc]
      · simp [hc]

/-- An invalid URL makes ShortenURL fail at once, leaving the whole state
untouched. -/
theorem ShortenURL_invalid (st : SysState) (f : Faults) (now : Nat)
    (drawn : List Nat) (s : String) (d : Option Nat) (h : isValidURL s = false) :
    URLService.ShortenURL st f now drawn s d =
      (Except.error ShortenError.invalidURL, st) := by
  unfold URLService.ShortenURL
  simp [h]

/-- A record already holding the requested original URL is returned as
is, with the whole state untouched. -/
theorem ShortenURL_existing (st : SysState) (f : Faults) (now : Nat)
    (drawn : List Nat) (s : String) (d : Option Nat) (r : ShortURL)
    (hv : isValidURL s = true) (horig : f.origLookup = false)
    (hfind : (st.store.find? fun x => x.originalURL == s) = some r) :
    URLService.ShortenURL st f now drawn s d = (Except.ok r, st) := by
  unfold URLService.ShortenURL MongoRepository.GetShortURLByOriginal
  simp [hv, horig, hfind]

/-- A fresh creation persists exactly the created record and consumes
whatever the key service consumed from the pool. -/
theorem ShortenURL_creates (st : SysState) (f : Faults) (now : Nat)
    (drawn : List Nat) (s : String) (d : Option Nat)
    (hv : isValidURL s = true)
    (hno : (st.store.find? fun r => r.originalURL == s) = none)
    (hins : f.insert = false) :
    ∃ code, KeyService.GetShortCode f.redisDown st.pool drawn =
        (Except.ok code, (KeyService.GetShortCode f.redisDown st.pool drawn).2) ∧
      URLService.ShortenURL st f now drawn s d =
        (Except.ok (createdRecord now s d code),
         { store := st.store ++ [createdRecord now s d code],
           pool := (KeyService.GetShortCode f.redisDown st.pool drawn).2 }) := by
  obtain ⟨code, hg1⟩ := GetShortCode_ok f.redisDown st.pool drawn
  have hex : (match MongoRepository.GetShortURLByOriginal st.store f.origLookup s with
      | Except.ok o => o
      | Except.error _ => none) = (none : Option ShortURL) := by
    unfold MongoRepository.GetShortURLByOriginal
    cases f.origLookup <;> simp [hno]
  refine ⟨code, ?_, ?_⟩ <;>
    rcases hpair : KeyService.GetShortCode f.redisDown st.pool drawn with ⟨ge, gp⟩ <;>
    rw [hpair] at hg1 <;>
    simp only [] at hg1 <;>
    subst hg1
  · rfl
  · unfold URLService.ShortenURL
    simp only [hv, Bool.not_true, Bool.false_eq_true, if_false, hex, hpair]
    unfold MongoRepository.CreateShortURL
    simp [hins, createdRecord]

/-- A fresh creation against a faulty insert surfaces the creation
failure. -/
theorem ShortenURL_create_fault (st : SysState) (f : Faults) (now : Nat)
    (drawn : List Nat) (s : String) (d : Option Nat)
    (hv : isValidURL s = true)
    (hno : (st.store.find? fun r => r.originalURL == s) = none)
    (hins : f.insert = true) :
    (URLService.ShortenURL st f now drawn s d).1 =
      Except.error ShortenError.createFailed := by
  obtain ⟨code, hg1⟩ := GetShortCode_ok f.redisDown st.pool drawn
  have hex : (match MongoRepository.GetShortURLByOriginal st.store f.origLookup s with
      | Except.ok o => o
      | Except.error _ => none) = (none : Option ShortURL) := by
    unfold MongoRepository.GetShortURLByOriginal
    cases f.origLookup <;> simp [hno]
  rcases hpair : KeyService.GetShortCode f.redisDown st.pool drawn with ⟨ge, gp⟩
  rw [hpair] at hg1
  simp only [] at hg1
  subst hg1
  unfold URLService.ShortenURL
  simp only [hv, Bool.not_true, Bool.false_eq_true, if_false, hex, hpair]
  unfold MongoRepository.CreateShortURL
  simp [hins]

/-- Appending past a fruitless search continues the search behind. -/
theorem find?_append_none {α : Type} (p : α → Bool) (l1 l2 : List α)
    (h : l1.find? p = none) : (l1 ++ l2).find? p = l2.find? p := by
  induction l1 with
  | nil => rfl
  | cons a t ih =>
    rw [List.cons_append]
    cases hpa : p a with
    | true =>
      rw [List.find?_cons_of_pos _ hpa] at h
      exact absurd h (by simp)
    | false =>
      rw [List.find?_cons_of_neg _ (by simp [hpa])] at h
      rw [List.find?_cons_of_neg _ (by simp [hpa])]
      exact ih h

/-- C3: ShortenURL fails with the invalid URL error exactly when the
input does not parse as a URL with nonempty scheme and host; on that
failure the whole state is untouched, so no record is created and no code
is generated; the two sample strings without scheme or host are indeed
invalid. -/
theorem C3_invalid_url_iff (st : SysState) (f : Faults) (now : Nat)
    (drawn : List Nat) (s : String) (d : Option Nat) :
    ((URLService.ShortenURL st f now drawn s d).1 =
        Except.error ShortenError.invalidURL ↔ isValidURL s = false) ∧
    (isValidURL s = false →
      URLService.ShortenURL st f now drawn s d =
        (Except.error ShortenError.invalidURL, st)) ∧
    isValidURL "not a url" = false ∧
    isValidURL "example.com" = false := by
  refine ⟨⟨?_, ?_⟩, ?_, ?_, ?_⟩
  · intro h
    cases hv : isValidURL s with
    | false => rfl
    | true =>
      exfalso
      unfold URLService.ShortenURL at h
      simp only [hv, Bool.not_true, Bool.false_eq_true, if_false] at h
      split at h
      · simp at h
      · split at h
        · simp at h
        · split at h <;> simp at h
  · intro h
    rw [ShortenURL_invalid st f now drawn s d h]
  · intro h
    rw [ShortenURL_invalid st f now drawn s d h]
  · decide
  · decide

theorem C3_witness :
    URLService.ShortenURL ⟨[], []⟩ noFaults 0 [1, 2, 3, 4, 5, 6] "not a url" none =
      (Except.error ShortenError.invalidURL, ⟨[], []⟩) :=
  (C3_invalid_url_iff ⟨[], []⟩ noFaults 0 [1, 2, 3, 4, 5, 6] "not a url" none).2.1
    (by decide)

/-- C4: a successful fresh creation persists a record whose creation
instant is now, active, with zero clicks, and whose expiry is now plus
the requested duration exactly when one was supplied, absent otherwise;
the record lands in the store. -/
theorem C4_new_record_fields (st : SysState) (f : Faults) (now : Nat)
    (drawn : List Nat) (s : String) (d : Option Nat)
    (hv : isValidURL s = true)
    (hno : (st.store.find? fun r => r.originalURL == s) = none)
    (hins : f.insert = false) :
    ∃ rec,
      URLService.ShortenURL st f now drawn s d =
        (Except.ok rec,
         { store := st.store ++ [rec],
           pool := (KeyService.GetShortCode f.redisDown st.pool drawn).2 }) ∧
      rec.createdAt = now ∧ rec.isActive = true ∧ rec.clickCount = 0 ∧
      rec.expiresAt = d.map (fun x => now + x) ∧ rec.originalURL = s := by
  obtain ⟨code, _, heq⟩ := ShortenURL_creates st f now drawn s d hv hno hins
  exact ⟨createdRecord now s d code, heq, rfl, rfl, rfl, rfl, rfl⟩

theorem C4_witness :
    ∃ rec,
      URLService.ShortenURL ⟨[], []⟩ noFaults 10 [1, 2, 3, 4, 5, 6]
          "https://example.com" (some 5) =
        (Except.ok rec,
         { store := [] ++ [rec],
           pool := (KeyService.GetShortCode noFaults.redisDown [] [1, 2, 3, 4, 5, 6]).2 }) ∧
      rec.createdAt = 10 ∧ rec.isActive = true ∧ rec.clickCount = 0 ∧
      rec.expiresAt = (some 5).map (fun x => 10 + x) ∧
      rec.originalURL = "https://example.com" :=
  C4_new_record_fields ⟨[], []⟩ noFaults 10 [1, 2, 3, 4, 5, 6]
    "https://example.com" (some 5) (by decide) rfl rfl

/-- C2: when a record with the requested original URL already exists,
ShortenURL returns exactly that record and leaves the whole state
unchanged, so no code is generated and no record created; consequently
two consecutive calls for the same valid URL return the same record, in
particular the same short code. -/
theorem C2_idempotent (st : SysState) (f : Faults) (now1 now2 : Nat)
    (drawn1 drawn2 : List Nat) (s : String) (d1 d2 : Option Nat)
    (hv : isValidURL s = true) (horig : f.origLookup = false) :
    (∀ r, (st.store.find? fun x => x.originalURL == s) = some r →
      URLService.ShortenURL st f now1 drawn1 s d1 = (Except.ok r, st)) ∧
    (∀ r1, (URLService.ShortenURL st f now1 drawn1 s d1).1 = Except.ok r1 →
      (URLService.ShortenURL (URLService.ShortenURL st f now1 drawn1 s d1).2
          f now2 drawn2 s d2).1 = Except.ok r1) := by
  constructor
  · intro r hfind
    exact ShortenURL_existing st f now1 drawn1 s d1 r hv horig hfind
  · intro r1 h1
    cases hfind : st.store.find? fun x => x.originalURL == s with
    | some r =>
      have he := ShortenURL_existing st f now1 drawn1 s d1 r hv horig hfind
      rw [he] at h1 ⊢
      simp only [] at h1
      have hr : r = r1 := by
        have := h1
        simp at this
        exact this
      subst hr
      rw [ShortenURL_existing st f now2 drawn2 s d2 r hv horig hfind]
    | none =>
      cases hins : f.insert with
      | true =>
        have := ShortenURL_create_fault st f now1 drawn1 s d1 hv hfind hins
        rw [this] at h1
        exact absurd h1 (by simp)
      | false =>
        obtain ⟨code, hg, heq⟩ := ShortenURL_creates st f now1 drawn1 s d1 hv hfind hins
        rw [heq] at h1 ⊢
        have hr : createdRecord now1 s d1 code = r1 := by
          simp at h1
          exact h1
        have hfind2 : ((st.store ++ [createdRecord now1 s d1 code]).find?
            fun x => x.originalURL == s) = some (createdRecord now1 s d1 code) := by
          rw [find?_append_none _ _ _ hfind]
          simp [createdRecord]
        rw [ShortenURL_existing _ f now2 drawn2 s d2 _ hv horig hfind2]
        rw [hr]

theorem C2_witness :
    URLService.ShortenURL ⟨[recPlain], []⟩ noFaults 5 [1, 2, 3, 4, 5, 6]
        "https://a.example" none = (Except.ok recPlain, ⟨[recPlain], []⟩) ∧
    (URLService.ShortenURL
        (URLService.ShortenURL ⟨[recPlain], []⟩ noFaults 5 [1, 2, 3, 4, 5, 6]
          "https://a.example" none).2
        noFaults 7 [6, 5, 4, 3, 2, 1] "https://a.example" none).1 =
      Except.ok recPlain := by
  have h := C2_idempotent ⟨[recPlain], []⟩ noFaults 5 7 [1, 2, 3, 4, 5, 6]
    [6, 5, 4, 3, 2, 1] "https://a.example" none none (by decide) rfl
  exact ⟨h.1 recPlain rfl, h.2 recPlain (by rw [h.1 recPlain rfl])⟩

/-- Appending a record with zero clicks respects the click relation. -/
theorem clickCountsOK_append (l : List ShortURL) (r : ShortURL)
    (h : r.clickCount = 0) : clickCountsOK l (l ++ [r]) := by
  intro i
  cases hi : l.get? i with
  | some a =>
    have hlt : i < l.length := (List.get?_eq_some.mp hi).1
    rw [List.get?_append hlt]
    rw [hi]
    exact clickRel_refl _
  | none =>
    have hge : l.length ≤ i := List.get?_eq_none.mp hi
    rw [List.get?_append_right hge]
    rcases Nat.eq_or_lt_of_le hge with heq | hlt2
    · have h0 : i - l.length = 0 := by omega
      rw [h0]
      simpa [clickRel] using h
    · have h1 : [r].get? (i - l.length) = none := by
        rw [List.get?_eq_none]
        simp
        omega
      rw [h1]
      simp [clickRel]

/-- Incrementing the first matching record respects the click relation. -/
theorem clickCountsOK_incFirst (l : List ShortURL) (code : String) :
    clickCountsOK l (incFirst l code) := by
  intro i
  induction l generalizing i with
  | nil => simp [incFirst, clickRel]
  | cons a t ih =>
    by_cases hc : a.shortCode == code
    · simp only [incFirst, if_pos hc]
      cases i with
      | zero => simp [clickRel]
      | succ n => exact clickRel_refl _
    · simp only [incFirst, if_neg hc]
      cases i with
      | zero => exact clickRel_refl _
      | succ n => exact ih n

/-- Incrementing the first matching record keeps every count at or above
zero. -/
theorem nonneg_incFirst (l : List ShortURL) (code : String)
    (h : ∀ r ∈ l, 0 ≤ r.clickCount) :
    ∀ r ∈ incFirst l code, 0 ≤ r.clickCount := by
  induction l with
  | nil =>
    intro r hr
    simp [incFirst] at hr
  | cons a t ih =>
    intro r hr
    by_cases hc : a.shortCode == code
    · simp only [incFirst, if_pos hc] at hr
      rcases List.mem_cons.mp hr with rfl | hrt
      · have ha := h a (by simp)
        simp only []
        omega
      · exact h r (List.mem_cons_of_mem a hrt)
    · simp only [incFirst, if_neg hc] at hr
      rcases List.mem_cons.mp hr with rfl | hrt
      · exact h r (by simp)
      · exact ih (fun x hx => h x (List.mem_cons_of_mem a hx)) r hrt

/-- Appending a record with zero clicks keeps every count at or above
zero. -/
theorem nonneg_append (l : List ShortURL) (r : ShortURL)
    (h : ∀ x ∈ l, 0 ≤ x.clickCount) (hr : r.clickCount = 0) :
    ∀ x ∈ l ++ [r], 0 ≤ x.clickCount := by
  intro x hx
  rcases List.mem_append.mp hx with hl | hsing
  · exact h x hl
  · simp at hsing
    subst hsing
    simp [hr]

/-- GetStats never changes the store. -/
theorem GetStats_store (store : List ShortURL) (f : Faults) (code : String) :
    (URLService.GetStats store f code).2 = store := by
  unfold URLService.GetStats
  split <;> rfl

/-- The store after one resolution is the old store or the old store with
its first matching record incremented. -/
theorem GetOriginalURL_store_shape (store : List ShortURL) (f : Faults)
    (now : Nat) (code : String) :
    (URLService.GetOriginalURL store f now code).2 = store ∨
    (URLService.GetOriginalURL store f now code).2 = incFirst store code := by
  unfold URLService.GetOriginalURL
  cases MongoRepository.GetShortURLByCode store f.codeLookup code with
  | error e => left; rfl
  | ok r =>
    by_cases hact : r.isActive
    · by_cases hexp : isExpired r.expiresAt now
      · left
        simp [hact, hexp]
      · cases hin : f.inc with
        | true =>
          left
          simp [hact, hexp, MongoRepository.UpdateClickCount, hin]
        | false =>
          right
          simp [hact, hexp, MongoRepository.UpdateClickCount, hin]
    · left
      simp [hact]

/-- The store after one shorten call is the old store or the old store
with one fresh record of zero clicks appended. -/
theorem ShortenURL_store_shape (st : SysState) (f : Faults) (now : Nat)
    (drawn : List Nat) (s : String) (d : Option Nat) :
    (URLService.ShortenURL st f now drawn s d).2.store = st.store ∨
    ∃ rec, rec.clickCount = 0 ∧
      (URLService.ShortenURL st f now drawn s d).2.store = st.store ++ [rec] := by
  unfold URLService.ShortenURL
  by_cases hv : isValidURL s
  · simp only [hv, Bool.not_true, Bool.false_eq_true, if_false]
    split
    · left; rfl
    · split
      · left; rfl
      · rename_i code pool2 heq
        cases hins : f.insert with
        | true =>
          left
          simp [MongoRepository.CreateShortURL, hins]
        | false =>
          right
          refine ⟨{ originalURL := s, shortCode := code, createdAt := now,
                    expiresAt := d.map fun x => now + x, clickCount := 0,
                    isActive := true }, rfl, ?_⟩
          simp [MongoRepository.CreateShortURL, hins]
  · left
    simp [hv]

/-- C9: across every operation of the registry the click count of every
record is a non negative integer that starts at zero and never decreases:
each operation leaves each count unchanged or increments it by exactly
one, and a fresh record starts at zero. -/
theorem C9_clickcount_monotone (pre : List ShortURL) (pool : List String)
    (f1 f2 f3 : Faults) (now1 now2 : Nat) (drawn : List Nat) (s : String)
    (d : Option Nat) (code1 code2 : String)
    (hpre : ∀ r ∈ pre, 0 ≤ r.clickCount) :
    (clickCountsOK pre (URLService.ShortenURL ⟨pre, pool⟩ f1 now1 drawn s d).2.store ∧
      ∀ r ∈ (URLService.ShortenURL ⟨pre, pool⟩ f1 now1 drawn s d).2.store,
        0 ≤ r.clickCount) ∧
    (clickCountsOK pre (URLService.GetOriginalURL pre f2 now2 code1).2 ∧
      ∀ r ∈ (URLService.GetOriginalURL pre f2 now2 code1).2, 0 ≤ r.clickCount) ∧
    (clickCountsOK pre (URLService.GetStats pre f3 code2).2 ∧
      ∀ r ∈ (URLService.GetStats pre f3 code2).2, 0 ≤ r.clickCount) := by
  refine ⟨?_, ?_, ?_⟩
  · rcases ShortenURL_store_shape ⟨pre, pool⟩ f1 now1 drawn s d with hsh | ⟨rec, hc, hsh⟩
    · rw [hsh]
      exact ⟨clickCountsOK_refl pre, hpre⟩
    · rw [hsh]
      exact ⟨clickCountsOK_append pre rec hc, nonneg_append pre rec hpre hc⟩
  · rcases GetOriginalURL_store_shape pre f2 now2 code1 with hsh | hsh
    · rw [hsh]
      exact ⟨clickCountsOK_refl pre, hpre⟩
    · rw [hsh]
      exact ⟨clickCountsOK_incFirst pre code1, nonneg_incFirst pre code1 hpre⟩
  · rw [GetStats_store pre f3 code2]
    exact ⟨clickCountsOK_refl pre, hpre⟩

theorem C9_witness :
    (clickCountsOK [recPlain]
        (URLService.ShortenURL ⟨[recPlain], []⟩ noFaults 1 [1, 2, 3, 4, 5, 6]
          "https://b.example" none).2.store ∧
      ∀ r ∈ (URLService.ShortenURL ⟨[recPlain], []⟩ noFaults 1 [1, 2, 3, 4, 5, 6]
          "https://b.example" none).2.store, 0 ≤ r.clickCount) ∧
    (clickCountsOK [recPlain]
        (URLService.GetOriginalURL [recPlain] noFaults 2 "aaa").2 ∧
      ∀ r ∈ (URLService.GetOriginalURL [recPlain] noFaults 2 "aaa").2,
        0 ≤ r.clickCount) ∧
    (clickCountsOK [recPlain] (URLService.GetStats [recPlain] noFaults "aaa").2 ∧
      ∀ r ∈ (URLService.GetStats [recPlain] noFaults "aaa").2, 0 ≤ r.clickCount) :=
  C9_clickcount_monotone [recPlain] [] noFaults noFaults noFaults 1 2
    [1, 2, 3, 4, 5, 6] "https://b.example" none "aaa" "aaa" (by decide)

end URLShortner
